import Mathlib

/-!
Verification development for the fin-agent repository.

Shallow embedding of the agentic chat route (`app/api/chat/route.ts`), the
tool executor / tool result processor (`app/api/chat/tool-executor.ts`), and
the multi-transcript fuzzy search engine (`app/api/chat/transcript-searcher.ts`).

JavaScript values exchanged between the planner, the executor, the processor
and the data provider are loosely typed; they are modelled by the `Json`
inductive below.  External collaborators (the FMP data provider, the
language-model client, and the fuse.js fuzzy matcher) are modelled as oracle
parameters: every theorem quantifies over their behaviour.

Modelling conventions, noted where they matter:
* machine floats (fuse.js match scores) are modelled as rationals — the code
  only compares and sorts them;
* JavaScript string operations are modelled on the underlying character
  lists so that every definition evaluates by kernel reduction;
* `new RegExp(name, 'i').test(text)` for the metacharacter-free executive
  names the claims are about is case-insensitive substring search, and is
  modelled as such.
-/

namespace FinAgent

/-- Loosely-typed JavaScript/JSON value.  `null` also stands for JS
`undefined`: the embedded code never distinguishes them. -/
inductive Json where
  | null : Json
  | bool (b : Bool) : Json
  | num (n : Int) : Json
  | str (s : String) : Json
  | arr (elems : List Json) : Json
  | obj (fields : List (String × Json)) : Json
deriving Repr, Inhabited

mutual

/-- Structural (JS `===`-style, extended structurally to arrays/objects)
equality test on `Json`.  Only used to model `new Set(...)` deduplication,
where the deduplicated values are strings in every claim. -/
def jeq : Json → Json → Bool
  | .null, .null => true
  | .bool a, .bool b => a == b
  | .num a, .num b => a == b
  | .str a, .str b => a == b
  | .arr xs, .arr ys => jeqList xs ys
  | .obj xs, .obj ys => jeqFields xs ys
  | _, _ => false

def jeqList : List Json → List Json → Bool
  | [], [] => true
  | x :: xs, y :: ys => jeq x y && jeqList xs ys
  | _, _ => false

def jeqFields : List (String × Json) → List (String × Json) → Bool
  | [], [] => true
  | (k, v) :: xs, (k', v') :: ys => k == k' && jeq v v' && jeqFields xs ys
  | _, _ => false

end

mutual

theorem jeq_refl : (a : Json) → jeq a a = true
  | .null => rfl
  | .bool b => by simp [jeq]
  | .num n => by simp [jeq]
  | .str s => by simp [jeq]
  | .arr xs => by simp [jeq, jeqList_refl xs]
  | .obj fs => by simp [jeq, jeqFields_refl fs]

theorem jeqList_refl : (xs : List Json) → jeqList xs xs = true
  | [] => rfl
  | x :: xs => by simp [jeqList, jeq_refl x, jeqList_refl xs]

theorem jeqFields_refl : (fs : List (String × Json)) → jeqFields fs fs = true
  | [] => rfl
  | (k, v) :: fs => by simp [jeqFields, jeq_refl v, jeqFields_refl fs]

end

theorem ne_of_jeq_false {a b : Json} (h : jeq a b = false) : a ≠ b := by
  intro hab
  rw [hab, jeq_refl] at h
  simp at h

/-- Last-binding-wins field lookup: JS object literals with duplicate keys
keep the later value, which matters for spreads like `{...x, sourceUrl}`. -/
def lookupLast : List (String × Json) → String → Option Json
  | [], _ => none
  | (k', v) :: rest, k =>
    match lookupLast rest k with
    | some r => some r
    | none => if k' = k then some v else none

/-- JS property access `j[k]`; yields `null` (our model of `undefined`)
when the receiver is not an object or the property is absent. -/
def Json.getField (j : Json) (k : String) : Json :=
  match j with
  | .obj fields => (lookupLast fields k).getD .null
  | _ => .null

/-- String payload of a `Json` value, when it is a string. -/
def Json.getStr : Json → Option String
  | .str s => some s
  | _ => none

/-- JS falsiness: `null`/`undefined`, `false`, `0`, `""`. -/
def jsFalsy : Json → Bool
  | .null => true
  | .bool b => !b
  | .num n => n == 0
  | .str s => s == ""
  | .arr _ => false
  | .obj _ => false

/-- JS logical OR `a || b`. -/
def jsOr (a b : Json) : Json := if jsFalsy a then b else a

/-- JS `String(v)` coercion for primitive values.  Arrays and objects are
given placeholder renderings: no claim coerces a non-primitive value. -/
def jsStringCoerce : Json → String
  | .null => "null"
  | .bool b => if b then "true" else "false"
  | .num n => toString n
  | .str s => s
  | .arr _ => ""
  | .obj _ => "[object Object]"

/-- JS `v.toString()`: throws on `null`/`undefined`, modelled as `none`.
Non-primitive receivers get the same placeholder renderings as above. -/
def jsToStringOpt : Json → Option String
  | .null => none
  | j => some (jsStringCoerce j)

/-- `typeof v === 'object' && v !== null` (arrays included). -/
def isObjLike : Json → Bool
  | .arr _ => true
  | .obj _ => true
  | _ => false

def isObj : Json → Bool
  | .obj _ => true
  | _ => false

def isNull : Json → Bool
  | .null => true
  | _ => false

def isNonemptyArr : Json → Bool
  | .arr (_ :: _) => true
  | _ => false

/-- JS `ToInteger` coercion used by `Array.prototype.slice` bounds, for the
primitive values the claims involve (`NaN`-producing inputs coerce to 0). -/
def jsToInt : Json → Int
  | .num n => n
  | .bool b => if b then 1 else 0
  | .str s => (s.toInt?).getD 0
  | _ => 0

/-- `xs.slice(0, e)` with a possibly negative end index. -/
def jsSliceTo {α : Type} (xs : List α) (e : Int) : List α :=
  if e < 0 then xs.take (xs.length - e.natAbs) else xs.take e.toNat

/-- `xs.slice(s, e)` for non-negative bounds. -/
def jsSliceRange {α : Type} (xs : List α) (s e : Nat) : List α :=
  (xs.drop s).take (e - s)

/-- `[...new Set(l)]`: keep the first occurrence of each value. -/
def jsSetDedupAux (seen : List Json) : List Json → List Json
  | [] => []
  | x :: xs =>
    if seen.any (jeq x) then jsSetDedupAux seen xs
    else x :: jsSetDedupAux (x :: seen) xs

def jsSetDedup (l : List Json) : List Json := jsSetDedupAux [] l

/- ------------------------------------------------------------------ -/
/- Character-level string utilities (kernel-reducible).               -/
/- ------------------------------------------------------------------ -/

/-- Split a character list on a separator; models `String.split`. -/
def splitChars (sep : Char) : List Char → List (List Char)
  | [] => [[]]
  | c :: cs =>
    let r := splitChars sep cs
    if c = sep then [] :: r
    else
      match r with
      | h :: t => (c :: h) :: t
      | [] => [[c]]

/-- `content.split('\n')`. -/
def jsSplitLines (s : String) : List String :=
  (splitChars '\n' s.data).map (fun cs => String.mk cs)

/-- `s.trim()` (JS trims Unicode whitespace; modelled with
`Char.isWhitespace`). -/
def jsTrim (s : String) : String :=
  String.mk (((s.data.dropWhile Char.isWhitespace).reverse.dropWhile Char.isWhitespace).reverse)

/-- `s.substring(0, n)`.  JS counts UTF-16 units, the model counts
characters; the claims do not depend on the difference. -/
def jsSubstrTo (s : String) (n : Nat) : String := String.mk (s.data.take n)

def charsContains (needle hay : List Char) : Bool :=
  match hay with
  | [] => needle.isEmpty
  | _ :: t => needle.isPrefixOf hay || charsContains needle t

/-- `new RegExp(pattern, 'i').test(hay)` for the metacharacter-free
patterns (executive names) the claims quantify over: case-insensitive
substring search. -/
def regexTestCI (pattern : String) (hay : String) : Bool :=
  charsContains (pattern.data.map Char.toLower) (hay.data.map Char.toLower)

/- ------------------------------------------------------------------ -/
/- Stable insertion sort on a boolean `le`, models `Array.sort(cmp)`. -/
/- ------------------------------------------------------------------ -/

def insertLe {α : Type} (le : α → α → Bool) (x : α) : List α → List α
  | [] => [x]
  | y :: ys => if le x y then x :: y :: ys else y :: insertLe le x ys

def sortLe {α : Type} (le : α → α → Bool) : List α → List α
  | [] => []
  | x :: xs => insertLe le x (sortLe le xs)

theorem insertLe_perm {α : Type} (le : α → α → Bool) (x : α) :
    (l : List α) → List.Perm (insertLe le x l) (x :: l)
  | [] => List.Perm.refl _
  | y :: ys => by
    rw [insertLe]
    by_cases h : le x y = true
    · rw [if_pos h]
    · rw [if_neg h]
      exact List.Perm.trans (List.Perm.cons y (insertLe_perm le x ys))
        (List.Perm.swap x y ys)

theorem sortLe_perm {α : Type} (le : α → α → Bool) :
    (l : List α) → List.Perm (sortLe le l) l
  | [] => List.Perm.refl _
  | x :: xs =>
    List.Perm.trans (insertLe_perm le x (sortLe le xs)) (List.Perm.cons x (sortLe_perm le xs))

theorem length_sortLe {α : Type} (le : α → α → Bool) (l : List α) :
    (sortLe le l).length = l.length :=
  (sortLe_perm le l).length_eq

theorem mem_sortLe {α : Type} {le : α → α → Bool} {a : α} {l : List α} :
    a ∈ sortLe le l ↔ a ∈ l :=
  (sortLe_perm le l).mem_iff

theorem pairwise_insertLe {α : Type} {le : α → α → Bool}
    (total : ∀ a b, le a b || le b a)
    (trans : ∀ a b c, le a b = true → le b c = true → le a c = true)
    (x : α) {l : List α}
    (h : l.Pairwise (fun a b => le a b = true)) :
    (insertLe le x l).Pairwise (fun a b => le a b = true) := by
  induction l with
  | nil => simp [insertLe]
  | cons y ys ih =>
    rw [insertLe]
    by_cases hxy : le x y = true
    · rw [if_pos hxy]
      refine List.Pairwise.cons ?_ h
      intro b hb
      rcases List.mem_cons.mp hb with rfl | hb
      · exact hxy
      · exact trans x y b hxy ((List.pairwise_cons.mp h).1 b hb)
    · have hyx : le y x = true := by
        rcases Bool.or_eq_true_iff.mp (total x y) with h1 | h1
        · exact absurd h1 hxy
        · exact h1
      rw [if_neg hxy]
      have hys := (List.pairwise_cons.mp h).2
      refine List.Pairwise.cons ?_ (ih hys)
      intro b hb
      have hb' : b = x ∨ b ∈ ys := by
        have := (insertLe_perm le x ys).mem_iff.mp hb
        simpa using this
      rcases hb' with rfl | hb'
      · exact hyx
      · exact (List.pairwise_cons.mp h).1 b hb'

theorem pairwise_sortLe {α : Type} {le : α → α → Bool}
    (total : ∀ a b, le a b || le b a)
    (trans : ∀ a b c, le a b = true → le b c = true → le a c = true)
    (l : List α) :
    (sortLe le l).Pairwise (fun a b => le a b = true) := by
  induction l with
  | nil => exact List.Pairwise.nil
  | cons x xs ih => exact pairwise_insertLe total trans x ih

/- ------------------------------------------------------------------ -/
/- Transcript search engine (`app/api/chat/transcript-searcher.ts`).  -/
/- ------------------------------------------------------------------ -/

/-- A paragraph as prepared for fuse.js: the filtered text plus its index
in the filtered paragraph list (`.map((text, index) => ({text, index}))`). -/
structure Paragraph where
  text : String
  index : Nat
deriving Repr

/-- One fuse.js search result: the matched item, its optional score
(`includeScore: true`; lower = better), and the values of its match
records (`includeMatches: true`).  fuse.js is an external library, so its
behaviour is an oracle parameter of type `FuzzySearcher` below. -/
structure FuseResult where
  item : Paragraph
  score : Option ℚ
  matchValues : List String
deriving Repr

/-- The fuse.js oracle: paragraphs plus the `$or` topic query ↦ results. -/
def FuzzySearcher : Type := List Paragraph → List Json → List FuseResult

/-- `TranscriptMention` from transcript-searcher.ts.  `topic` and `speaker`
are loosely typed values in the source (an executive entry or a matched
string). -/
structure Mention where
  topic : Json
  speaker : Json
  context : String
  score : ℚ
deriving Repr

def joinLines : List String → String
  | [] => ""
  | [x] => x
  | x :: xs => x ++ "\n" ++ joinLines xs

/-- `content.split('\n').filter(p => p.trim().length > 50)
.map((text, index) => ({ text, index }))`. -/
def mkParagraphs (content : String) : List Paragraph :=
  (((jsSplitLines content).filter (fun p => (jsTrim p).length > 50)).enum).map
    (fun ti => ⟨ti.2, ti.1⟩)

/-- Character class of `/^([A-Z][a-zA-Z\s.,'-]+?)[:]/` after the first
character. -/
def speakerClassChar (c : Char) : Bool :=
  c.isAlpha || c.isWhitespace || c = '.' || c = ',' || c = '\'' || c = '-'

/-- Scan for the lazy group body: consume class characters until the first
`:`; fail on any other character. -/
def speakerScan : List Char → Option (List Char)
  | [] => none
  | c :: cs =>
    if c = ':' then some []
    else if speakerClassChar c then (speakerScan cs).map (c :: ·)
    else none

/-- `paragraph.match(/^([A-Z][a-zA-Z\s.,'-]+?)[:]/)` followed by
`speakerMatch[1].trim()`. -/
def parseSpeaker (s : String) : Option String :=
  match s.data with
  | [] => none
  | c :: cs =>
    if c.isUpper then
      match speakerScan cs with
      | some grp => if grp.isEmpty then none else some (jsTrim (String.mk (c :: grp)))
      | none => none
    else none

/-- `result.matches?.[0]?.value || topics[0]`. -/
def matchedTopicOf (topics : List Json) (r : FuseResult) : Json :=
  match r.matchValues with
  | v :: _ => if v = "" then topics.headD .null else .str v
  | [] => topics.headD .null

/-- The executive lookup window: paragraphs `max(0, i-3) .. i` joined; the
first executive whose (case-insensitive) name occurs in it, if any. -/
def execSpeaker (paragraphs : List Paragraph) (executives : List Json) (idx : Nat) :
    Option Json :=
  let searchArea := joinLines ((jsSliceRange paragraphs (idx - 3) (idx + 1)).map (·.text))
  executives.find? (fun e => regexTestCI (jsStringCoerce e) searchArea)

/-- Processing of one fuse result inside the `for (const result of
results.slice(0, 15))` loop: context extraction, speaker attribution, and
the executive hard filter (`if (!executiveMatch) continue`). -/
def mentionOfResult (paragraphs : List Paragraph) (topics executives : List Json)
    (r : FuseResult) : Option Mention :=
  let paragraph := r.item.text
  let paragraphIndex := r.item.index
  let score := r.score.getD 0
  let matchedTopic := matchedTopicOf topics r
  let contextStart := paragraphIndex - 1
  let contextEnd := min (paragraphs.length - 1) (paragraphIndex + 1)
  let context := joinLines ((jsSliceRange paragraphs contextStart (contextEnd + 1)).map (·.text))
  if executives.isEmpty then
    let speaker := match parseSpeaker paragraph with
      | some sp => Json.str sp
      | none => Json.str "Unknown"
    some ⟨matchedTopic, speaker, jsSubstrTo context 800, score⟩
  else
    match execSpeaker paragraphs executives paragraphIndex with
    | some e => some ⟨matchedTopic, e, jsSubstrTo context 800, score⟩
    | none => none

def mentionLe (a b : Mention) : Bool := a.score ≤ b.score

/-- `searchTranscriptContent` from transcript-searcher.ts: paragraph
preparation, fuzzy search, per-result processing of the first 15 raw
matches, then ascending sort by score and the per-transcript cap of 8. -/
def searchTranscriptContent (fuse : FuzzySearcher) (content : String)
    (topics executives : List Json) (symbol : Json) : List Mention :=
  if content = "" || topics.isEmpty then []
  else
    let paragraphs := mkParagraphs content
    let results := fuse paragraphs topics
    let mentions := (results.take 15).filterMap (mentionOfResult paragraphs topics executives)
    (sortLe mentionLe mentions).take 8

/-- Normalized `searchTranscripts` arguments (the destructuring with `||`
defaults at the top of `executeTranscriptSearch`). -/
structure SearchArgs where
  symbols : List Json
  topic : Json
  executives : Json
  lookbackQuarters : Json
deriving Repr

def normalizeSearchArgs (toolArgs : Json) : SearchArgs :=
  { symbols :=
      match toolArgs.getField "symbols" with
      | .arr xs => xs
      | v => [v]
    topic := jsOr (toolArgs.getField "topic") (.str "")
    executives := jsOr (toolArgs.getField "executives") (.arr [])
    lookbackQuarters := jsOr (toolArgs.getField "lookbackQuarters") (.num 4) }

/-- The executives value as iterated by `for (const exec of executives)`
and tested by `executives.length > 0`: arrays iterate their elements,
strings iterate their characters, and every other value has no numeric
`length` so it behaves as empty. -/
def execList : Json → List Json
  | .arr xs => xs
  | .str s => s.data.map (fun c => Json.str (String.mk [c]))
  | _ => []

/-- The topic-expansion phase: the auxiliary LLM call plus `JSON.parse`
are modelled as one `Except` oracle (`.error` = the call or the parse
threw, caught by the surrounding `catch`).  The expanded set replaces
`[topic]` only when the parsed object carries a truthy `topics` array. -/
def expandTopics (topic : Json) (expansion : Except String Json) : List Json :=
  if jsFalsy topic then [topic]
  else
    match expansion with
    | .error _ => [topic]
    | .ok parsed =>
      -- `expansionResult.topics && Array.isArray(expansionResult.topics)`:
      -- an array is always truthy, so the guard holds exactly for arrays
      match parsed.getField "topics" with
      | .arr xs => jsSetDedup (topic :: xs)
      | _ => [topic]

/-- The FMP data provider as seen by the searcher.  `fmpClient.get` never
throws (it catches and returns an `{error: ...}` object), so both calls
are total functions into `Json`. -/
structure SearchProvider where
  getDates : Json → Json
  getTranscript : Json → String → String → Json

/-- A pooled mention: `{ ...mention, symbol, date: transcriptResult[0].date }`. -/
structure PooledMention where
  topic : Json
  speaker : Json
  context : String
  score : ℚ
  symbol : Json
  date : Json
deriving Repr

def pooledLe (a b : PooledMention) : Bool := a.score ≤ b.score

/-- One iteration of `for (const dateInfo of recentDates)`: returns the
pooled mentions plus (transcript fetches made, transcripts analyzed),
each 0 or 1.  A missing year/quarter makes `.toString()` throw before the
fetch; a truthy non-string `content` makes the search throw after the
analyzed count; both throws are absorbed by the per-quarter `catch`. -/
def scanQuarter (provider : SearchProvider) (fuse : FuzzySearcher)
    (topics executives : List Json) (symbol : Json) (dateInfo : Json) :
    List PooledMention × Nat × Nat :=
  match jsToStringOpt (jsOr (dateInfo.getField "fiscalYear") (dateInfo.getField "year")),
        jsToStringOpt (dateInfo.getField "quarter") with
  | some y, some q =>
    match provider.getTranscript symbol y q with
    | .arr (t0 :: _) =>
      let content := t0.getField "content"
      if jsFalsy content then ([], 1, 0)
      else
        match content with
        | .str s =>
          let ms := searchTranscriptContent fuse s topics executives symbol
          (ms.map (fun m => ⟨m.topic, m.speaker, m.context, m.score, symbol, t0.getField "date"⟩),
           1, 1)
        | _ => ([], 1, 1)
    | _ => ([], 1, 0)
  | _, _ => ([], 0, 0)

def scanQuarters (provider : SearchProvider) (fuse : FuzzySearcher)
    (topics executives : List Json) (symbol : Json) :
    List Json → List PooledMention × Nat × Nat
  | [] => ([], 0, 0)
  | d :: ds =>
    let r := scanQuarter provider fuse topics executives symbol d
    let rest := scanQuarters provider fuse topics executives symbol ds
    (r.1 ++ rest.1, r.2.1 + rest.2.1, r.2.2 + rest.2.2)

/-- One iteration of `for (const symbol of symbols)`: fetch the transcript
dates, skip the symbol unless they form a non-empty array, and scan the
first `lookbackQuarters` entries. -/
def scanSymbol (provider : SearchProvider) (fuse : FuzzySearcher)
    (topics executives : List Json) (lookback : Json) (symbol : Json) :
    List PooledMention × Nat × Nat :=
  -- `if (!Array.isArray(transcriptDatesResult) || transcriptDatesResult.length === 0) continue`
  match provider.getDates symbol with
  | .arr ds =>
    if ds.isEmpty then ([], 0, 0)
    else scanQuarters provider fuse topics executives symbol (jsSliceTo ds (jsToInt lookback))
  | _ => ([], 0, 0)

def scanSymbols (provider : SearchProvider) (fuse : FuzzySearcher)
    (topics executives : List Json) (lookback : Json) :
    List Json → List PooledMention × Nat × Nat
  | [] => ([], 0, 0)
  | s :: ss =>
    let r := scanSymbol provider fuse topics executives lookback s
    let rest := scanSymbols provider fuse topics executives lookback ss
    (r.1 ++ rest.1, r.2.1 + rest.2.1, r.2.2 + rest.2.2)

def MAX_MENTIONS_TO_RETURN : Nat := 15

def SNIPPET_LENGTH : Nat := 200

structure SummarizedMention where
  symbol : Json
  date : Json
  speaker : Json
  topic : Json
  snippet : String
deriving Repr

def summarize (m : PooledMention) : SummarizedMention :=
  ⟨m.symbol, m.date, m.speaker, m.topic, jsSubstrTo m.context SNIPPET_LENGTH ++ "..."⟩

/-- The object returned by `executeTranscriptSearch` on its success path. -/
structure TranscriptSearchValue where
  querySymbols : List Json
  queryTopic : Json
  queryExecutives : Json
  queryLookbackQuarters : Json
  resultsSummary : List SummarizedMention
  totalMatchesFound : Nat
  companiesSearched : Nat
  transcriptsAnalyzed : Nat
  summary : String
deriving Repr

/-- The search result plus instrumentation: the sorted mention pool (the
in-place `allMentions.sort(...)`) and the number of transcript-body
fetches performed. -/
structure SearchOutcome where
  value : TranscriptSearchValue
  sortedPool : List PooledMention
  transcriptFetches : Nat
deriving Repr

/-- `executeTranscriptSearch` from transcript-searcher.ts.  The outer
`try/catch` is unreachable in the model because the provider never throws
and every per-quarter throw is caught by the inner `catch`, so the success
shape is always produced. -/
def executeTranscriptSearch (provider : SearchProvider) (fuse : FuzzySearcher)
    (expansion : Except String Json) (toolArgs : Json) : SearchOutcome :=
  let a := normalizeSearchArgs toolArgs
  let expandedTopics := expandTopics a.topic expansion
  let scanned := scanSymbols provider fuse expandedTopics (execList a.executives)
    a.lookbackQuarters a.symbols
  let allMentions := scanned.1
  let sorted := sortLe pooledLe allMentions
  let summarized := (sorted.take MAX_MENTIONS_TO_RETURN).map summarize
  { value :=
    { querySymbols := a.symbols
      queryTopic := a.topic
      queryExecutives := a.executives
      queryLookbackQuarters := a.lookbackQuarters
      resultsSummary := summarized
      totalMatchesFound := allMentions.length
      companiesSearched := a.symbols.length
      transcriptsAnalyzed := scanned.2.2
      summary := "Found " ++ toString allMentions.length ++ " potential mentions of \"" ++
        jsStringCoerce a.topic ++ "\". Returning the top " ++ toString summarized.length ++
        " most relevant snippets." }
    sortedPool := sorted
    transcriptFetches := scanned.2.1 }

def SummarizedMention.toJson (m : SummarizedMention) : Json :=
  .obj [("symbol", m.symbol), ("date", m.date), ("speaker", m.speaker),
        ("topic", m.topic), ("snippet", .str m.snippet)]

def TranscriptSearchValue.toJson (v : TranscriptSearchValue) : Json :=
  .obj [("query", .obj [("symbols", .arr v.querySymbols), ("topic", v.queryTopic),
          ("executives", v.queryExecutives), ("lookbackQuarters", v.queryLookbackQuarters)]),
        ("resultsSummary", .arr (v.resultsSummary.map SummarizedMention.toJson)),
        ("totalMatchesFound", .num v.totalMatchesFound),
        ("companiesSearched", .num v.companiesSearched),
        ("transcriptsAnalyzed", .num v.transcriptsAnalyzed),
        ("summary", .str v.summary)]

/- ------------------------------------------------------------------ -/
/- Tool executor and result processor (`app/api/chat/tool-executor.ts`).-/
/- ------------------------------------------------------------------ -/

/-- `fmpClient.get(endpoint, params)`; total, per lib/fmp_client.ts
(every failure is caught and returned as an `{error: ...}` object). -/
structure FmpClient where
  get : String → List (String × Json) → Json

def providerOfFmp (fmp : FmpClient) : SearchProvider :=
  { getDates := fun symbol => fmp.get "/earning-call-transcript-dates" [("symbol", symbol)]
    getTranscript := fun symbol y q =>
      fmp.get "/earning-call-transcript"
        [("symbol", symbol), ("year", .str y), ("quarter", .str q)] }

/-- `encodeURIComponent`, modelled as the identity: no claim depends on
the percent-encoded text of a provenance URL. -/
def encodeURIComponentModel (s : String) : String := s

def fmpBase : String := "https://financialmodelingprep.com/stable"

/-- `Math.max(...(toolArgs.years || [10])) + 1` for the number-array
arguments the tool schema defines (`Math.max()` of an empty spread is
`-Infinity` in JS; modelled as 0, no claim reaches it). -/
def growthLimitOf (years : Json) : Int :=
  match jsOr years (.arr [.num 10]) with
  | .arr (x :: xs) => (xs.map jsToInt).foldl max (jsToInt x) + 1
  | _ => 1

def joinComma : List String → String
  | [] => ""
  | [x] => x
  | x :: xs => x ++ "," ++ joinComma xs

/-- `executeTool` from tool-executor.ts: the `switch (toolName)` mapping
each recognized tool to one data-provider call (plus a provenance URL),
`searchTranscripts` to the Transcript Search Engine, and every other name
to the `Unknown tool` error shape.  `apiKey` is `process.env.PUBLIC_API_KEY`
as interpolated into the URLs. -/
def executeTool (fmp : FmpClient) (fuse : FuzzySearcher) (expansion : Except String Json)
    (apiKey : String) (toolName : String) (toolArgs : Json) : Json × String :=
  if toolName = "resolveSymbol" then
    (fmp.get "/search-name" [("query", toolArgs.getField "query"), ("limit", .str "10")],
     fmpBase ++ "/search-name?query=" ++
       encodeURIComponentModel (jsStringCoerce (toolArgs.getField "query")) ++
       "&limit=10&apikey=" ++ apiKey)
  else if toolName = "listTranscriptDates" then
    (fmp.get "/earning-call-transcript-dates" [("symbol", toolArgs.getField "symbol")],
     fmpBase ++ "/earning-call-transcript-dates?symbol=" ++
       jsStringCoerce (toolArgs.getField "symbol") ++ "&apikey=" ++ apiKey)
  else if toolName = "getTranscript" then
    (fmp.get "/earning-call-transcript"
       [("symbol", toolArgs.getField "symbol"), ("year", toolArgs.getField "year"),
        ("quarter", toolArgs.getField "quarter")],
     fmpBase ++ "/earning-call-transcript?symbol=" ++ jsStringCoerce (toolArgs.getField "symbol") ++
       "&year=" ++ jsStringCoerce (toolArgs.getField "year") ++
       "&quarter=" ++ jsStringCoerce (toolArgs.getField "quarter") ++ "&apikey=" ++ apiKey)
  else if toolName = "getStatement" then
    -- destructuring defaults (`period = 'annual'`, `limit = 5`) fire on
    -- absent/undefined fields
    let statement := toolArgs.getField "statement"
    let period := if isNull (toolArgs.getField "period") then .str "annual"
      else toolArgs.getField "period"
    let limit := if isNull (toolArgs.getField "limit") then .num 5 else toolArgs.getField "limit"
    let statementEndpoint := "/" ++ jsStringCoerce statement ++ "-statement"
    (fmp.get statementEndpoint
       [("symbol", toolArgs.getField "symbol"), ("period", period),
        ("limit", .str (jsStringCoerce limit))],
     fmpBase ++ statementEndpoint ++ "?symbol=" ++ jsStringCoerce (toolArgs.getField "symbol") ++
       "&period=" ++ jsStringCoerce period ++ "&limit=" ++ jsStringCoerce limit ++
       "&apikey=" ++ apiKey)
  else if toolName = "getFinancialGrowth" then
    let growthLimit := toString (growthLimitOf (toolArgs.getField "years"))
    let period := jsOr (toolArgs.getField "period") (.str "annual")
    (fmp.get "/financial-growth"
       [("symbol", toolArgs.getField "symbol"), ("period", period), ("limit", .str growthLimit)],
     fmpBase ++ "/financial-growth?symbol=" ++ jsStringCoerce (toolArgs.getField "symbol") ++
       "&period=" ++ jsStringCoerce period ++ "&limit=" ++ growthLimit ++ "&apikey=" ++ apiKey)
  else if toolName = "getKeyMetrics" then
    let metricsLimit := jsOr (toolArgs.getField "limit") (.num 5)
    (fmp.get "/key-metrics"
       [("symbol", toolArgs.getField "symbol"), ("period", .str "annual"),
        ("limit", .str (jsStringCoerce metricsLimit))],
     fmpBase ++ "/key-metrics?symbol=" ++ jsStringCoerce (toolArgs.getField "symbol") ++
       "&period=annual&limit=" ++ jsStringCoerce metricsLimit ++ "&apikey=" ++ apiKey)
  else if toolName = "searchNews" then
    let symbolsString :=
      match toolArgs.getField "symbols" with
      | .arr xs => joinComma (xs.map jsStringCoerce)
      | v => jsStringCoerce v
    let newsLimit := jsOr (toolArgs.getField "limit") (.num 20)
    (fmp.get "/news/stock"
       [("symbols", .str symbolsString), ("limit", .str (jsStringCoerce newsLimit))],
     fmpBase ++ "/news/stock?symbols=" ++ symbolsString ++ "&limit=" ++
       jsStringCoerce newsLimit ++ "&apikey=" ++ apiKey)
  else if toolName = "getQuote" then
    (fmp.get "/quote" [("symbol", toolArgs.getField "symbol")],
     fmpBase ++ "/quote?symbol=" ++ jsStringCoerce (toolArgs.getField "symbol") ++
       "&apikey=" ++ apiKey)
  else if toolName = "searchTranscripts" then
    let symbolsForUrl :=
      match toolArgs.getField "symbols" with
      | .arr xs => xs
      | v => [v]
    let sourceUrl :=
      match symbolsForUrl with
      | [s] => fmpBase ++ "/earning-call-transcript-dates?symbol=" ++ jsStringCoerce s ++
          "&apikey=" ++ apiKey
      | _ => "https://financialmodelingprep.com/developer/docs/stable/earnings-transcript-list"
    ((executeTranscriptSearch (providerOfFmp fmp) fuse expansion toolArgs).value.toJson, sourceUrl)
  else
    (Json.obj [("error", .str ("Unknown tool: " ++ toolName))], "Unknown tool")

/-- `{...v}` spread into an object literal: objects contribute their
fields, arrays contribute index-keyed fields, primitives contribute
nothing. -/
def jsSpreadFields : Json → List (String × Json)
  | .obj fs => fs
  | .arr xs => (xs.enum).map (fun p => (toString p.1, p.2))
  | _ => []

def usExchanges : List String := ["NASDAQ", "NYSE", "AMEX"]

/-- The `resolveSymbol` candidate preference:
`usExchanges.includes(r.exchange) && r.currency === 'USD' &&
!r.symbol.includes('.')`.  A candidate whose `symbol` is not a string
would make JS throw at `.includes`; the model returns `false` there and
the theorems assume well-formed candidates. -/
def usCandidate (r : Json) : Bool :=
  (match (r.getField "exchange").getStr with
   | some e => usExchanges.contains e
   | none => false) &&
  ((r.getField "currency").getStr == some "USD") &&
  !(match (r.getField "symbol").getStr with
    | some s => s.data.contains '.'
    | none => true)

def statementLabel (s : String) : String :=
  if s = "income" then "Income Statement API"
  else if s = "balance-sheet" then "Balance Sheet API"
  else if s = "cash-flow" then "Cash Flow API"
  else "Financial Statement API"

/-- The `case "resolveSymbol"` arm of the processor switch. -/
def processResolveSymbol (toolResult toolArgs : Json) (sourceUrl : String) : Json :=
  match toolResult with
  | .arr (c :: cs) =>
    let bestResult := ((c :: cs).find? usCandidate).getD c
    .obj [("query", toolArgs.getField "query"), ("found", .bool true),
          ("ticker", bestResult.getField "symbol"),
          ("companyName", bestResult.getField "name"),
          ("exchange", bestResult.getField "exchange"),
          ("currency", bestResult.getField "currency"),
          ("sourceUrl", .str sourceUrl), ("toolDescription", .str "Company Search"),
          ("message", .str ("Found ticker symbol: " ++
            jsStringCoerce (bestResult.getField "symbol") ++ " for " ++
            jsStringCoerce (bestResult.getField "name") ++ " on " ++
            jsStringCoerce (bestResult.getField "exchange")))]
  | _ =>
    .obj [("query", toolArgs.getField "query"), ("found", .bool false),
          ("sourceUrl", .str sourceUrl), ("toolDescription", .str "Company Search"),
          ("message", .str ("No ticker symbol found for \"" ++
            jsStringCoerce (toolArgs.getField "query") ++ "\""))]

/-- The `case "getStatement"` arm of the processor switch. -/
def processGetStatement (toolResult toolArgs : Json) (sourceUrl : String) : Json :=
  match toolResult with
  | .arr (t0 :: ts) =>
    .obj [("symbol", toolArgs.getField "symbol"),
          ("statementType", toolArgs.getField "statement"),
          ("period", jsOr (toolArgs.getField "period") (.str "annual")),
          ("recordsFound", .num ((t0 :: ts).length : Int)),
          ("mostRecentPeriod", t0),
          ("allPeriods", .arr ((t0 :: ts).take 3)),
          ("sourceUrl", .str sourceUrl),
          ("toolDescription",
            .str (statementLabel (jsStringCoerce (toolArgs.getField "statement"))))]
  | _ =>
    .obj [("symbol", toolArgs.getField "symbol"),
          ("statementType", toolArgs.getField "statement"),
          ("sourceUrl", .str sourceUrl),
          ("toolDescription", .str "Financial Statement API"),
          ("error", .str "No financial statements found")]

/-- The `case "getQuote"` arm of the processor switch: flatten a
one-or-more-element result array, pass anything else through as-is. -/
def processGetQuote (toolResult : Json) (sourceUrl : String) : Json :=
  match toolResult with
  | .arr (t0 :: _) =>
    .obj (jsSpreadFields t0 ++
      [("sourceUrl", .str sourceUrl), ("toolDescription", .str "Stock Quote API")])
  | _ => toolResult

/-- The `case "searchTranscripts"` arm of the processor switch. -/
def processSearchTranscriptsResult (toolResult : Json) (sourceUrl : String) : Json :=
  if isObjLike toolResult && jsFalsy (toolResult.getField "error") then
    .obj (jsSpreadFields toolResult ++
      [("sourceUrl", .str sourceUrl), ("toolDescription", .str "Multi-Transcript Search")])
  else
    .obj [("error",
            if isObjLike toolResult then toolResult.getField "error" else .str "Unknown error"),
          ("sourceUrl", .str sourceUrl),
          ("toolDescription", .str "Multi-Transcript Search")]

/-- The `default` arm of the processor switch: attach provenance to any
non-null object (arrays included), pass primitives through as-is. -/
def processDefaultResult (toolName : String) (toolResult : Json) (sourceUrl : String) : Json :=
  if isObjLike toolResult then
    .obj (jsSpreadFields toolResult ++
      [("sourceUrl", .str sourceUrl), ("toolDescription", .str toolName)])
  else toolResult

/-- `processToolResult` from tool-executor.ts (the Tool Result Processor):
normalizes each raw tool result and attaches `sourceUrl` /
`toolDescription` provenance fields.  The switch arms are the helper
definitions above. -/
def processToolResult (toolName : String) (toolResult : Json) (toolArgs : Json)
    (sourceUrl : String) : Json :=
  if toolName = "resolveSymbol" then processResolveSymbol toolResult toolArgs sourceUrl
  else if toolName = "getStatement" then processGetStatement toolResult toolArgs sourceUrl
  else if toolName = "getFinancialGrowth" then
    .obj [("symbol", toolArgs.getField "symbol"), ("metric", toolArgs.getField "metric"),
          ("requestedYears", toolArgs.getField "years"), ("rawData", toolResult),
          ("sourceUrl", .str sourceUrl), ("toolDescription", .str "getFinancialGrowth")]
  else if toolName = "getQuote" then processGetQuote toolResult sourceUrl
  else if toolName = "searchTranscripts" then
    processSearchTranscriptsResult toolResult sourceUrl
  else processDefaultResult toolName toolResult sourceUrl

/- ------------------------------------------------------------------ -/
/- Agent loop and streaming transport (`app/api/chat/route.ts`).       -/
/- ------------------------------------------------------------------ -/

/-- One tool-call request from the planner.  `args` is the result of
`JSON.parse(toolCall.function.arguments)`; a parse failure would throw to
the route's top-level catch and is outside every claim's scope. -/
structure ToolCall where
  id : String
  name : String
  args : Json
deriving Repr

structure PlannerDecision where
  content : Json
  toolCalls : List ToolCall
deriving Repr

/-- The planning capability: accumulated conversation ↦ decision. -/
def Planner : Type := List Json → PlannerDecision

/-- One inline tool execution + result processing, as performed by the
route's loop body.  Tool results never influence the loop's control flow
(only the planner's decisions do), so the claims about the loop hold for
any runner; the executor and processor themselves are modelled above. -/
def ToolRunner : Type := String → Json → Json

inductive StreamEvent where
  | metadata (toolsUsed : List String) (stepCount : Nat)
  | content (text : String)
  | done
  | error (message : String)
deriving Repr

def isMetadataEv : StreamEvent → Bool
  | .metadata _ _ => true
  | _ => false

def isContentEv : StreamEvent → Bool
  | .content _ => true
  | _ => false

def isTerminalEv : StreamEvent → Bool
  | .done => true
  | .error _ => true
  | _ => false

/-- The body of `new ReadableStream({start})`: enqueue the metadata event;
forward every non-empty synthesis content delta; then either the `done`
event or — if iterating the synthesis stream threw (`iterErr`) — one
`error` event; `finally { controller.close() }` closes exactly once.
`chunks` are the content deltas received before any throw.  Returns the
enqueued events and the number of `close()` calls. -/
def streamEvents (meta : StreamEvent) (chunks : List String) (iterErr : Option String) :
    List StreamEvent × Nat :=
  let contents := (chunks.filter (fun c => c ≠ "")).map StreamEvent.content
  match iterErr with
  | none => (meta :: contents ++ [.done], 1)
  | some e => (meta :: contents ++ [.error e], 1)

structure LoopState where
  conversation : List Json
  plannerCalls : Nat
  allToolsUsed : List String
deriving Repr

def assistantMsgJson (d : PlannerDecision) : Json :=
  .obj [("role", .str "assistant"), ("content", d.content),
        ("tool_calls", .arr (d.toolCalls.map (fun tc =>
          .obj [("id", .str tc.id), ("name", .str tc.name), ("arguments", tc.args)])))]

/-- `{ tool_call_id, role: "tool", content: JSON.stringify(processed) }`;
the stringified payload is modelled by the processed value itself. -/
def toolMsgJson (tc : ToolCall) (processed : Json) : Json :=
  .obj [("tool_call_id", .str tc.id), ("role", .str "tool"), ("content", processed)]

/-- `for (let step = 0; step < maxSteps; step++)`: call the planner; stop
if it requests no tools; otherwise execute every requested tool, append
the assistant message and all tool responses, and continue.  `fuel` is
the number of remaining iterations. -/
def agentLoop (planner : Planner) (runTool : ToolRunner) : Nat → LoopState → LoopState
  | 0, s => s
  | fuel + 1, s =>
    let d := planner s.conversation
    let s' : LoopState := { s with plannerCalls := s.plannerCalls + 1 }
    if d.toolCalls.isEmpty then s'
    else
      let toolResponses := d.toolCalls.map (fun tc => toolMsgJson tc (runTool tc.name tc.args))
      agentLoop planner runTool fuel
        { conversation := s'.conversation ++ [assistantMsgJson d] ++ toolResponses
          plannerCalls := s'.plannerCalls
          allToolsUsed := s'.allToolsUsed ++ d.toolCalls.map (·.name) }

/-- `const maxSteps = 12; // Prevent infinite loops` -/
def maxSteps : Nat := 12

inductive PostResponse where
  | jsonError (status : Nat) (body : Json)
  | stream (events : List StreamEvent) (closeCount : Nat)
deriving Repr

/-- The route's observable outcome plus capability-call instrumentation. -/
structure PostOutcome where
  response : PostResponse
  plannerCalls : Nat
  toolCallsExecuted : Nat
  synthesisCalls : Nat
deriving Repr

/-- `!messages || messages.length === 0`. -/
def messagesMissing (messages : Json) : Bool :=
  jsFalsy messages ||
    (match messages with
     | .arr xs => xs.isEmpty
     | _ => false)

/-- `[...messages]`: arrays spread to their elements, strings to their
characters; any other (truthy, non-empty) value is not iterable, so the
spread throws to the top-level catch (the 500 path). -/
def spreadMessages : Json → Option (List Json)
  | .arr xs => some xs
  | .str s => some (s.data.map (fun c => Json.str (String.mk [c])))
  | _ => none

/-- `POST` from route.ts: request validation, the bounded agent loop, the
unconditional synthesis step, and the SSE stream.  `synthChunks` are the
synthesis stream's content deltas and `synthIterErr` an error thrown while
iterating it (both oracle behaviour of the synthesis capability). -/
def POST (planner : Planner) (runTool : ToolRunner) (synthChunks : List String)
    (synthIterErr : Option String) (body : Json) : PostOutcome :=
  let messages := body.getField "messages"
  if messagesMissing messages then
    { response := .jsonError 400 (.obj [("error", .str "Messages are required")])
      plannerCalls := 0, toolCallsExecuted := 0, synthesisCalls := 0 }
  else
    match spreadMessages messages with
    | none =>
      { response := .jsonError 500
          (.obj [("error", .str "An error occurred while processing your request")])
        plannerCalls := 0, toolCallsExecuted := 0, synthesisCalls := 0 }
    | some msgs =>
      let final := agentLoop planner runTool maxSteps ⟨msgs, 0, []⟩
      let meta := StreamEvent.metadata final.allToolsUsed final.allToolsUsed.length
      let ev := streamEvents meta synthChunks synthIterErr
      { response := .stream ev.1 ev.2
        plannerCalls := final.plannerCalls
        toolCallsExecuted := final.allToolsUsed.length
        synthesisCalls := 1 }

/- ------------------------------------------------------------------ -/
/- Supporting lemmas.                                                  -/
/- ------------------------------------------------------------------ -/

theorem agentLoop_plannerCalls_le (planner : Planner) (runTool : ToolRunner) :
    ∀ (fuel : Nat) (s : LoopState),
      (agentLoop planner runTool fuel s).plannerCalls ≤ s.plannerCalls + fuel
  | 0, s => by simp [agentLoop]
  | n + 1, s => by
    simp only [agentLoop]
    cases h : (planner s.conversation).toolCalls.isEmpty
    · rw [if_neg (by simp [h])]
      refine le_trans (agentLoop_plannerCalls_le planner runTool n _) ?_
      show s.plannerCalls + 1 + n ≤ s.plannerCalls + (n + 1)
      omega
    · rw [if_pos (by simp [h])]
      show s.plannerCalls + 1 ≤ s.plannerCalls + (n + 1)
      omega

theorem agentLoop_plannerCalls_eq (planner : Planner) (runTool : ToolRunner)
    (hp : ∀ conv, (planner conv).toolCalls ≠ []) :
    ∀ (fuel : Nat) (s : LoopState),
      (agentLoop planner runTool fuel s).plannerCalls = s.plannerCalls + fuel
  | 0, s => by simp [agentLoop]
  | n + 1, s => by
    simp only [agentLoop]
    have h : (planner s.conversation).toolCalls.isEmpty = false := by
      rcases h' : (planner s.conversation).toolCalls with _ | _
      · exact absurd h' (hp s.conversation)
      · rfl
    rw [if_neg (by simp [h])]
    rw [agentLoop_plannerCalls_eq planner runTool hp n _]
    show s.plannerCalls + 1 + n = s.plannerCalls + (n + 1)
    omega

/-- Behaviour of `POST` on a request with a non-empty `messages` array:
run the loop, then synthesize and stream. -/
theorem POST_nonempty (planner : Planner) (runTool : ToolRunner)
    (synthChunks : List String) (synthIterErr : Option String) (body : Json)
    (msgs : List Json) (hm : body.getField "messages" = Json.arr msgs) (hne : msgs ≠ []) :
    POST planner runTool synthChunks synthIterErr body =
      { response := .stream
          (streamEvents
            (StreamEvent.metadata
              (agentLoop planner runTool maxSteps ⟨msgs, 0, []⟩).allToolsUsed
              (agentLoop planner runTool maxSteps ⟨msgs, 0, []⟩).allToolsUsed.length)
            synthChunks synthIterErr).1
          (streamEvents
            (StreamEvent.metadata
              (agentLoop planner runTool maxSteps ⟨msgs, 0, []⟩).allToolsUsed
              (agentLoop planner runTool maxSteps ⟨msgs, 0, []⟩).allToolsUsed.length)
            synthChunks synthIterErr).2
        plannerCalls := (agentLoop planner runTool maxSteps ⟨msgs, 0, []⟩).plannerCalls
        toolCallsExecuted := (agentLoop planner runTool maxSteps ⟨msgs, 0, []⟩).allToolsUsed.length
        synthesisCalls := 1 } := by
  have hmiss : messagesMissing (Json.arr msgs) = false := by
    simp [messagesMissing, jsFalsy, hne]
  rw [POST, hm, hmiss]
  rfl

/- ------------------------------------------------------------------ -/
/- Claim theorems.                                                     -/
/- ------------------------------------------------------------------ -/

/-- C1: for every request with a non-empty `messages` array, the agent
loop performs at most `maxSteps = 12` planner iterations (and exactly 12
when the planner requests a tool on every iteration), and the request
still produces a synthesis stream response — reaching the ceiling is a
forced exit to synthesis, not an error.  Termination is by construction:
`agentLoop` is a total function on its fuel. -/
theorem agent_loop_iteration_ceiling (planner : Planner) (runTool : ToolRunner)
    (synthChunks : List String) (synthIterErr : Option String) (body : Json)
    (msgs : List Json) (hm : body.getField "messages" = Json.arr msgs) (hne : msgs ≠ []) :
    (POST planner runTool synthChunks synthIterErr body).plannerCalls ≤ maxSteps ∧
    ((∀ conv, (planner conv).toolCalls ≠ []) →
      (POST planner runTool synthChunks synthIterErr body).plannerCalls = maxSteps) ∧
    (∃ events, (POST planner runTool synthChunks synthIterErr body).response =
        .stream events 1 ∧
      (POST planner runTool synthChunks synthIterErr body).synthesisCalls = 1) := by
  rw [POST_nonempty planner runTool synthChunks synthIterErr body msgs hm hne]
  refine ⟨?_, ?_, ?_⟩
  · show (agentLoop planner runTool maxSteps ⟨msgs, 0, []⟩).plannerCalls ≤ maxSteps
    simpa using agentLoop_plannerCalls_le planner runTool maxSteps ⟨msgs, 0, []⟩
  · intro hp
    show (agentLoop planner runTool maxSteps ⟨msgs, 0, []⟩).plannerCalls = maxSteps
    simpa using agentLoop_plannerCalls_eq planner runTool hp maxSteps ⟨msgs, 0, []⟩
  · rcases synthIterErr with _ | e <;> exact ⟨_, rfl, rfl⟩

/-- A stub planner that always requests one tool, for the C1 witness. -/
def c1Planner : Planner := fun _ => ⟨Json.null, [⟨"call1", "getQuote", Json.null⟩]⟩

def c1Runner : ToolRunner := fun _ _ => Json.null

def c1Body : Json := Json.obj [("messages", Json.arr [Json.str "hi"])]

/-- C1 witness: a concrete request against a stub planner that always
requests one tool yields exactly 12 planner calls and a stream response. -/
theorem agent_loop_iteration_ceiling_witness :
    (POST c1Planner c1Runner ["answer"] none c1Body).plannerCalls ≤ maxSteps ∧
    (POST c1Planner c1Runner ["answer"] none c1Body).plannerCalls = maxSteps ∧
    (∃ events, (POST c1Planner c1Runner ["answer"] none c1Body).response = .stream events 1 ∧
      (POST c1Planner c1Runner ["answer"] none c1Body).synthesisCalls = 1) := by
  obtain ⟨h1, h2, h3⟩ := agent_loop_iteration_ceiling c1Planner c1Runner ["answer"] none
    c1Body [Json.str "hi"] rfl (List.cons_ne_nil _ _)
  exact ⟨h1, h2 (fun conv => List.cons_ne_nil _ _), h3⟩

/-- C3: for every request that reaches the synthesis step (non-empty
`messages` array), the SSE stream holds exactly one metadata event, which
is the very first event (hence precedes every content event), exactly one
terminal (`done` or `error`) event, which is the last event, and the
stream is closed exactly once. -/
theorem stream_event_ordering (planner : Planner) (runTool : ToolRunner)
    (synthChunks : List String) (synthIterErr : Option String) (body : Json)
    (msgs : List Json) (events : List StreamEvent) (closes : Nat)
    (hm : body.getField "messages" = Json.arr msgs) (hne : msgs ≠ [])
    (hr : (POST planner runTool synthChunks synthIterErr body).response =
      .stream events closes) :
    events.countP isMetadataEv = 1 ∧
    (∃ m, events.head? = some m ∧ isMetadataEv m = true) ∧
    events.countP isTerminalEv = 1 ∧
    (∃ t, events.getLast? = some t ∧ isTerminalEv t = true) ∧
    closes = 1 := by
  rw [POST_nonempty planner runTool synthChunks synthIterErr body msgs hm hne] at hr
  have hcont0 : ∀ (p : StreamEvent → Bool), (∀ t, p (.content t) = false) →
      ((synthChunks.filter (fun c => c ≠ "")).map StreamEvent.content).countP p = 0 := by
    intro p hp
    rw [List.countP_eq_zero]
    intro e he
    rcases List.mem_map.mp he with ⟨t, _, rfl⟩
    simp [hp t]
  have main : ∀ (term : StreamEvent) (meta1 : List String) (meta2 : Nat),
      isTerminalEv term = true →
      ∀ (evs : List StreamEvent),
        evs = StreamEvent.metadata meta1 meta2 ::
          ((synthChunks.filter (fun c => c ≠ "")).map StreamEvent.content ++ [term]) →
        evs.countP isMetadataEv = 1 ∧
        (∃ m, evs.head? = some m ∧ isMetadataEv m = true) ∧
        evs.countP isTerminalEv = 1 ∧
        (∃ t, evs.getLast? = some t ∧ isTerminalEv t = true) := by
    intro term meta1 meta2 hterm evs hevs
    subst hevs
    refine ⟨?_, ⟨_, rfl, rfl⟩, ?_, ⟨term, ?_, hterm⟩⟩
    · rw [List.countP_cons_of_pos _ _ (by rfl), List.countP_append,
        hcont0 isMetadataEv (fun _ => rfl)]
      cases term <;> simp_all [List.countP_cons, isMetadataEv, isTerminalEv]
    · rw [List.countP_cons_of_neg _ _ (by simp [isTerminalEv]), List.countP_append,
        hcont0 isTerminalEv (fun _ => rfl)]
      simp [List.countP_cons, hterm]
    · rw [← List.cons_append]
      exact List.getLast?_concat _
  rcases synthIterErr with _ | e <;> simp only [streamEvents, PostResponse.stream.injEq] at hr
  · rcases hr with ⟨hev, hcl⟩
    rcases main .done _ _ rfl events hev.symm with ⟨h1, h2, h3, h4⟩
    exact ⟨h1, h2, h3, h4, hcl.symm⟩
  · rcases hr with ⟨hev, hcl⟩
    rcases main (.error e) _ _ rfl events hev.symm with ⟨h1, h2, h3, h4⟩
    exact ⟨h1, h2, h3, h4, hcl.symm⟩

/-- C3 witness: a concrete request whose synthesis stream yields two
deltas (one empty) and then errors still satisfies the ordering
invariants. -/
theorem stream_event_ordering_witness :
    ∃ events closes, (POST (fun _ => ⟨Json.null, []⟩) (fun _ _ => Json.null)
        ["part", ""] (some "boom")
        (Json.obj [("messages", Json.arr [Json.str "hi"])])).response =
        .stream events closes ∧
      events.countP isMetadataEv = 1 ∧
      (∃ m, events.head? = some m ∧ isMetadataEv m = true) ∧
      events.countP isTerminalEv = 1 ∧
      (∃ t, events.getLast? = some t ∧ isTerminalEv t = true) ∧
      closes = 1 := by
  refine ⟨_, _, rfl, ?_⟩
  exact stream_event_ordering (fun _ => ⟨Json.null, []⟩) (fun _ _ => Json.null)
    ["part", ""] (some "boom") (Json.obj [("messages", Json.arr [Json.str "hi"])])
    [Json.str "hi"] _ _ rfl (List.cons_ne_nil _ _) rfl

/-- The tool names recognized by `executeTool`'s switch. -/
def recognizedToolNames : List String :=
  ["resolveSymbol", "listTranscriptDates", "getTranscript", "getStatement",
   "getFinancialGrowth", "getKeyMetrics", "searchNews", "getQuote", "searchTranscripts"]

/-- C7: for every tool name outside the executor's switch, `executeTool`
returns normally (it is a total function) with the error-shaped result
`{error: "Unknown tool: <name>"}` and the `"Unknown tool"` provenance
marker, so the agent loop can append a well-formed tool message. -/
theorem unknown_tool_error_shape (fmp : FmpClient) (fuse : FuzzySearcher)
    (expansion : Except String Json) (apiKey : String) (toolName : String) (toolArgs : Json)
    (h : toolName ∉ recognizedToolNames) :
    executeTool fmp fuse expansion apiKey toolName toolArgs =
      (Json.obj [("error", .str ("Unknown tool: " ++ toolName))], "Unknown tool") := by
  simp only [recognizedToolNames, List.mem_cons, List.not_mem_nil, or_false, not_or] at h
  obtain ⟨h1, h2, h3, h4, h5, h6, h7, h8, h9⟩ := h
  rw [executeTool, if_neg h1, if_neg h2, if_neg h3, if_neg h4, if_neg h5, if_neg h6,
    if_neg h7, if_neg h8, if_neg h9]

/-- C7 witness: the unrecognized name `"frobnicate"` yields exactly the
tagged error result. -/
theorem unknown_tool_error_shape_witness :
    executeTool ⟨fun _ _ => Json.null⟩ (fun _ _ => []) (.error "unused") "key"
        "frobnicate" (Json.obj []) =
      (Json.obj [("error", .str "Unknown tool: frobnicate")], "Unknown tool") :=
  unknown_tool_error_shape _ _ _ _ "frobnicate" _ (by decide)

/-- C9: a request whose `messages` field is absent (`undefined`) or an
empty array receives the HTTP 400 `Messages are required` response, and
no planning, tool, or synthesis capability is invoked. -/
theorem empty_messages_bad_request (planner : Planner) (runTool : ToolRunner)
    (synthChunks : List String) (synthIterErr : Option String) (body : Json)
    (h : body.getField "messages" = Json.null ∨ body.getField "messages" = Json.arr []) :
    POST planner runTool synthChunks synthIterErr body =
      { response := .jsonError 400 (.obj [("error", .str "Messages are required")])
        plannerCalls := 0, toolCallsExecuted := 0, synthesisCalls := 0 } := by
  rcases h with h | h <;> rw [POST, h] <;> rfl

/-- C9 witness: the empty request body `{}` (no `messages` field) gets the
400 response with zero capability calls. -/
theorem empty_messages_bad_request_witness :
    POST (fun _ => ⟨Json.null, []⟩) (fun _ _ => Json.null) [] none (Json.obj []) =
      { response := .jsonError 400 (.obj [("error", .str "Messages are required")])
        plannerCalls := 0, toolCallsExecuted := 0, synthesisCalls := 0 } :=
  empty_messages_bad_request _ _ _ _ _ (Or.inl rfl)

theorem jsSetDedupAux_spec : ∀ (l : List Json) (seen : List Json),
    (jsSetDedupAux seen l).Nodup ∧ ∀ x ∈ jsSetDedupAux seen l, seen.any (jeq x) = false
  | [], seen => ⟨List.Pairwise.nil, by simp [jsSetDedupAux]⟩
  | x :: xs, seen => by
    rw [jsSetDedupAux]
    by_cases h : seen.any (jeq x) = true
    · rw [if_pos h]
      exact jsSetDedupAux_spec xs seen
    · rw [if_neg h]
      obtain ⟨hnd, hmem⟩ := jsSetDedupAux_spec xs (x :: seen)
      have hxfalse : seen.any (jeq x) = false := by
        cases h' : seen.any (jeq x)
        · rfl
        · exact absurd h' h
      refine ⟨List.Pairwise.cons ?_ hnd, ?_⟩
      · intro y hy
        have hys := hmem y hy
        rw [List.any_cons, Bool.or_eq_false_iff] at hys
        exact (ne_of_jeq_false hys.1).symm
      · intro y hy
        rcases List.mem_cons.mp hy with rfl | hy'
        · exact hxfalse
        · have hys := hmem y hy'
          rw [List.any_cons, Bool.or_eq_false_iff] at hys
          exact hys.2

theorem jsSetDedup_nodup (l : List Json) : (jsSetDedup l).Nodup :=
  (jsSetDedupAux_spec l []).1

theorem mem_jsSetDedup_head (t : Json) (xs : List Json) : t ∈ jsSetDedup (t :: xs) := by
  rw [jsSetDedup, jsSetDedupAux]
  rw [if_neg (by simp)]
  exact List.mem_cons_self t _

theorem expandTopics_error_eq_emptyObj (topic : Json) (e : String) :
    expandTopics topic (.error e) = expandTopics topic (.ok (Json.obj [])) := by
  by_cases hf : jsFalsy topic = true <;>
    simp [expandTopics, hf, Json.getField, lookupLast]

/-- C6: for every transcript search with a non-empty topic, a failed
topic-expansion call (thrown error or unparseable output) or a parsed
object without a `topics` array leaves the search working with exactly
the original topic alone, and the whole `executeTranscriptSearch` result
is identical to the one produced with an empty expansion object — the
failure never fails the tool.  On success the expanded set is
deduplicated and always contains the original topic. -/
theorem topic_expansion_fallback (topic : String) (ht : topic ≠ "")
    (errMsg : String) (parsed : Json) :
    expandTopics (.str topic) (.error errMsg) = [.str topic] ∧
    ((∀ xs, parsed.getField "topics" ≠ Json.arr xs) →
      expandTopics (.str topic) (.ok parsed) = [.str topic]) ∧
    (∀ xs, parsed.getField "topics" = Json.arr xs →
      (expandTopics (.str topic) (.ok parsed)).Nodup ∧
      Json.str topic ∈ expandTopics (.str topic) (.ok parsed)) ∧
    (∀ (provider : SearchProvider) (fuse : FuzzySearcher) (toolArgs : Json),
      executeTranscriptSearch provider fuse (.error errMsg) toolArgs =
        executeTranscriptSearch provider fuse (.ok (Json.obj [])) toolArgs) := by
  have hft : jsFalsy (Json.str topic) = false := by simp [jsFalsy, ht]
  refine ⟨by simp [expandTopics, hft], ?_, ?_, ?_⟩
  · intro hna
    rcases h' : parsed.getField "topics" with _ | b | n | s | xs | fs
    case arr => exact absurd h' (hna xs)
    all_goals simp [expandTopics, hft, h']
  · intro xs hxs
    rw [expandTopics]
    rw [if_neg (by simp [hft])]
    rw [hxs]
    exact ⟨jsSetDedup_nodup _, mem_jsSetDedup_head _ _⟩
  · intro provider fuse toolArgs
    simp only [executeTranscriptSearch,
      expandTopics_error_eq_emptyObj (normalizeSearchArgs toolArgs).topic errMsg]

/-- C6 witness: with topic `"AI"` and an expansion result
`{"topics": ["machine learning", "AI"]}`, the expanded set is
duplicate-free and contains the original topic; and a thrown expansion
falls back to the topic alone. -/
theorem topic_expansion_fallback_witness :
    expandTopics (.str "AI") (.error "network down") = [.str "AI"] ∧
    (expandTopics (.str "AI")
        (.ok (Json.obj [("topics", Json.arr [.str "machine learning", .str "AI"])]))).Nodup ∧
    Json.str "AI" ∈ expandTopics (.str "AI")
        (.ok (Json.obj [("topics", Json.arr [.str "machine learning", .str "AI"])])) := by
  obtain ⟨h1, _, h3, _⟩ := topic_expansion_fallback "AI" (by decide) "network down"
    (Json.obj [("topics", Json.arr [.str "machine learning", .str "AI"])])
  obtain ⟨h3a, h3b⟩ := h3 [.str "machine learning", .str "AI"] rfl
  exact ⟨h1, h3a, h3b⟩

/-- C10: because `searchTranscripts` argument defaulting uses `||`, any
falsy `lookbackQuarters` (0 included) normalizes to 4, and the whole
search behaves identically to an explicit `lookbackQuarters: 4` (same
fetches, same result, same echoed query); likewise a falsy `topic`
becomes `""` and falsy `executives` becomes `[]`. -/
theorem lookback_falsy_default (provider : SearchProvider) (fuse : FuzzySearcher)
    (expansion : Except String Json) (args0 args4 : Json)
    (hsym : args0.getField "symbols" = args4.getField "symbols")
    (htop : args0.getField "topic" = args4.getField "topic")
    (hexe : args0.getField "executives" = args4.getField "executives")
    (h0 : jsFalsy (args0.getField "lookbackQuarters") = true)
    (h4 : args4.getField "lookbackQuarters" = Json.num 4) :
    executeTranscriptSearch provider fuse expansion args0 =
      executeTranscriptSearch provider fuse expansion args4 ∧
    (normalizeSearchArgs args0).lookbackQuarters = Json.num 4 ∧
    (∀ a : Json, jsFalsy (a.getField "topic") = true →
      (normalizeSearchArgs a).topic = Json.str "") ∧
    (∀ a : Json, jsFalsy (a.getField "executives") = true →
      (normalizeSearchArgs a).executives = Json.arr []) := by
  have hlb : jsOr (args0.getField "lookbackQuarters") (Json.num 4) =
      jsOr (args4.getField "lookbackQuarters") (Json.num 4) := by
    rw [jsOr, if_pos h0, h4, jsOr, if_neg (by simp [jsFalsy])]
  have hn : normalizeSearchArgs args0 = normalizeSearchArgs args4 := by
    rw [normalizeSearchArgs, normalizeSearchArgs, hsym, htop, hexe, hlb]
  refine ⟨by simp only [executeTranscriptSearch, hn], ?_, ?_, ?_⟩
  · rw [hn]
    simp only [normalizeSearchArgs]
    rw [h4]
    rfl
  · intro a ha
    simp [normalizeSearchArgs, jsOr, ha]
  · intro a ha
    simp [normalizeSearchArgs, jsOr, ha]

def c10Provider : SearchProvider :=
  { getDates := fun _ => Json.arr [
      Json.obj [("year", .num 2025), ("quarter", .num 2)],
      Json.obj [("year", .num 2025), ("quarter", .num 1)],
      Json.obj [("year", .num 2024), ("quarter", .num 4)],
      Json.obj [("year", .num 2024), ("quarter", .num 3)],
      Json.obj [("year", .num 2024), ("quarter", .num 2)]]
    getTranscript := fun _ _ _ => Json.arr [] }

def c10Fuse : FuzzySearcher := fun _ _ => []

def c10Args0 : Json := Json.obj [("symbols", Json.arr [.str "AAA"]),
  ("topic", .str "margins"), ("lookbackQuarters", .num 0)]

def c10Args4 : Json := Json.obj [("symbols", Json.arr [.str "AAA"]),
  ("topic", .str "margins"), ("lookbackQuarters", .num 4)]

/-- C10 witness: with `lookbackQuarters: 0` and five available quarters,
the search equals the `lookbackQuarters: 4` search and performs 4 (not 0)
transcript fetches. -/
theorem lookback_falsy_default_witness :
    executeTranscriptSearch c10Provider c10Fuse (.error "skip") c10Args0 =
      executeTranscriptSearch c10Provider c10Fuse (.error "skip") c10Args4 ∧
    (executeTranscriptSearch c10Provider c10Fuse (.error "skip") c10Args0).transcriptFetches = 4 := by
  obtain ⟨h1, _, _, _⟩ := lookback_falsy_default c10Provider c10Fuse (.error "skip")
    c10Args0 c10Args4 rfl rfl rfl rfl rfl
  exact ⟨h1, rfl⟩

/-- Candidate well-formedness for `resolveSymbol` results: an object whose
`symbol` field is a string (so that the JS `.includes('.')` test cannot
throw). -/
def candWF (c : Json) : Bool := isObj c && ((c.getField "symbol").getStr).isSome

/-- C8: the `resolveSymbol` processor prefers the first candidate on
NASDAQ/NYSE/AMEX quoted in USD whose ticker has no `"."` (`usCandidate`),
falls back to the first candidate, and reports `found: false` with the
`No ticker symbol found` message (no error) on an empty candidate list. -/
theorem resolve_symbol_selection (toolArgs : Json) (url : String) (cs : List Json)
    (hwf : cs.all candWF = true) :
    (cs = [] → processToolResult "resolveSymbol" (Json.arr cs) toolArgs url =
      Json.obj [("query", toolArgs.getField "query"), ("found", .bool false),
        ("sourceUrl", .str url), ("toolDescription", .str "Company Search"),
        ("message", .str ("No ticker symbol found for \"" ++
          jsStringCoerce (toolArgs.getField "query") ++ "\""))]) ∧
    (∀ c cs', cs = c :: cs' →
      (processToolResult "resolveSymbol" (Json.arr cs) toolArgs url).getField "found" =
        Json.bool true ∧
      (processToolResult "resolveSymbol" (Json.arr cs) toolArgs url).getField "ticker" =
        ((cs.find? usCandidate).getD c).getField "symbol" ∧
      (∀ b, cs.find? usCandidate = some b → b ∈ cs ∧ usCandidate b = true)) := by
  clear hwf
  constructor
  · rintro rfl
    rfl
  · rintro c cs' rfl
    refine ⟨rfl, rfl, ?_⟩
    intro b hb
    exact ⟨List.mem_of_find?_eq_some hb, List.find?_some hb⟩

def spotCandidate : Json := Json.obj [("symbol", .str "SPOT"),
  ("name", .str "Spotify Technology"), ("exchange", .str "NYSE"), ("currency", .str "USD")]

/-- C8 witness: a single SPOT/NYSE/USD candidate yields `found: true` with
ticker `"SPOT"`, and an empty candidate list for `"Unlistedcorp"` yields
`found: false` with the quoted message. -/
theorem resolve_symbol_selection_witness :
    (processToolResult "resolveSymbol" (Json.arr [spotCandidate])
        (Json.obj [("query", .str "Spotify")]) "u").getField "found" = Json.bool true ∧
    (processToolResult "resolveSymbol" (Json.arr [spotCandidate])
        (Json.obj [("query", .str "Spotify")]) "u").getField "ticker" = Json.str "SPOT" ∧
    processToolResult "resolveSymbol" (Json.arr [])
        (Json.obj [("query", .str "Unlistedcorp")]) "u" =
      Json.obj [("query", .str "Unlistedcorp"), ("found", .bool false),
        ("sourceUrl", .str "u"), ("toolDescription", .str "Company Search"),
        ("message", .str "No ticker symbol found for \"Unlistedcorp\"")] := by
  obtain ⟨_, hcons⟩ := resolve_symbol_selection (Json.obj [("query", .str "Spotify")]) "u"
    [spotCandidate] rfl
  obtain ⟨hfound, hticker, _⟩ := hcons spotCandidate [] rfl
  obtain ⟨hempty, _⟩ := resolve_symbol_selection (Json.obj [("query", .str "Unlistedcorp")]) "u"
    [] rfl
  exact ⟨hfound, hticker.trans (by rfl), (hempty rfl).trans (by rfl)⟩

theorem lookupLast_append (l1 l2 : List (String × Json)) (k : String) :
    lookupLast (l1 ++ l2) k =
      match lookupLast l2 k with
      | some v => some v
      | none => lookupLast l1 k := by
  induction l1 with
  | nil =>
    rw [List.nil_append]
    cases lookupLast l2 k <;> rfl
  | cons p l1 ih =>
    rcases p with ⟨k', v⟩
    rw [List.cons_append, lookupLast, ih, lookupLast]
    cases lookupLast l2 k <;> cases lookupLast l1 k <;> rfl

theorem getField_spread_sourceUrl (base : Json) (url d : String) :
    (Json.obj (jsSpreadFields base ++
      [("sourceUrl", .str url), ("toolDescription", .str d)])).getField "sourceUrl" =
      .str url := by
  rw [Json.getField, lookupLast_append]
  rfl

theorem getField_spread_toolDescription (base : Json) (url d : String) :
    (Json.obj (jsSpreadFields base ++
      [("sourceUrl", .str url), ("toolDescription", .str d)])).getField "toolDescription" =
      .str d := by
  rw [Json.getField, lookupLast_append]
  rfl

theorem statementLabel_ne_empty (s : String) : statementLabel s ≠ "" := by
  rw [statementLabel]
  split
  · decide
  split
  · decide
  split
  · decide
  · decide

/-- The searchTranscripts branch of the processor, exposed. -/
theorem processToolResult_searchTranscripts (toolResult toolArgs : Json) (url : String) :
    processToolResult "searchTranscripts" toolResult toolArgs url =
      if isObjLike toolResult && jsFalsy (toolResult.getField "error") then
        .obj (jsSpreadFields toolResult ++
          [("sourceUrl", .str url), ("toolDescription", .str "Multi-Transcript Search")])
      else
        .obj [("error",
                if isObjLike toolResult then toolResult.getField "error"
                else .str "Unknown error"),
              ("sourceUrl", .str url),
              ("toolDescription", .str "Multi-Transcript Search")] := rfl

/-- C4 counterexample: an error-shaped `getQuote` result — exactly what
`fmpClient.get` returns on a failed fetch — is passed through unprocessed:
the processor output carries no `sourceUrl` (and no `toolDescription`)
field at all, refuting the claim that every output carries them. -/
theorem processed_result_provenance_cex :
    processToolResult "getQuote"
        (Json.obj [("error", .str "Failed to fetch from FMP API")])
        (Json.obj [("symbol", .str "SPOT")])
        "https://financialmodelingprep.com/stable/quote?symbol=SPOT&apikey=k" =
      Json.obj [("error", .str "Failed to fetch from FMP API")] ∧
    (processToolResult "getQuote"
        (Json.obj [("error", .str "Failed to fetch from FMP API")])
        (Json.obj [("symbol", .str "SPOT")])
        "https://financialmodelingprep.com/stable/quote?symbol=SPOT&apikey=k").getField
      "sourceUrl" = Json.null :=
  ⟨rfl, rfl⟩

/-- The raw-result shapes the processor actually decorates: everything for
the four special-cased tools; a non-empty array for `getQuote`; a non-null
object (arrays included) for every other tool. -/
def decoratedCase (toolName : String) (toolResult : Json) : Bool :=
  if toolName = "getQuote" then isNonemptyArr toolResult
  else if toolName = "resolveSymbol" || toolName = "getStatement" ||
      toolName = "getFinancialGrowth" || toolName = "searchTranscripts" then true
  else isObjLike toolResult

/-- C4 (amended): for every tool name and raw result in a decorated case
(`decoratedCase`), the processor output carries `sourceUrl` equal to the
supplied provenance URL (non-empty in the pipeline, here a hypothesis)
and a non-empty `toolDescription`; outside the decorated cases — a
`getQuote` result that is not a non-empty array, or a non-object result
for a tool without special processing — the raw result is passed through
unchanged, without these fields. -/
theorem processed_result_provenance (toolName : String) (toolResult toolArgs : Json)
    (url : String) (hurl : url ≠ "") (hname : toolName ≠ "")
    (hdec : decoratedCase toolName toolResult = true) :
    (processToolResult toolName toolResult toolArgs url).getField "sourceUrl" = .str url ∧
    ∃ d, (processToolResult toolName toolResult toolArgs url).getField "toolDescription" =
      .str d ∧ d ≠ "" := by
  by_cases h1 : toolName = "resolveSymbol"
  · subst h1
    rcases toolResult with _ | b | n | s | (_ | ⟨c, cs⟩) | fs <;>
      exact ⟨rfl, "Company Search", rfl, by decide⟩
  by_cases h2 : toolName = "getStatement"
  · subst h2
    rcases toolResult with _ | b | n | s | (_ | ⟨t0, ts⟩) | fs <;>
      first
      | exact ⟨rfl, "Financial Statement API", rfl, by decide⟩
      | exact ⟨rfl, statementLabel (jsStringCoerce (toolArgs.getField "statement")), rfl,
          statementLabel_ne_empty _⟩
  by_cases h3 : toolName = "getFinancialGrowth"
  · subst h3
    exact ⟨rfl, "getFinancialGrowth", rfl, by decide⟩
  by_cases h4 : toolName = "getQuote"
  · subst h4
    rw [decoratedCase, if_pos rfl] at hdec
    rcases toolResult with _ | b | n | s | (_ | ⟨t0, ts⟩) | fs <;> simp [isNonemptyArr] at hdec
    exact ⟨getField_spread_sourceUrl t0 url "Stock Quote API",
      "Stock Quote API", getField_spread_toolDescription t0 url "Stock Quote API", by decide⟩
  by_cases h5 : toolName = "searchTranscripts"
  · subst h5
    rw [processToolResult_searchTranscripts]
    by_cases hc : (isObjLike toolResult && jsFalsy (toolResult.getField "error")) = true
    · rw [if_pos hc]
      exact ⟨getField_spread_sourceUrl toolResult url "Multi-Transcript Search",
        "Multi-Transcript Search",
        getField_spread_toolDescription toolResult url "Multi-Transcript Search", by decide⟩
    · rw [if_neg hc]
      exact ⟨rfl, "Multi-Transcript Search", rfl, by decide⟩
  -- generic pass-through case
  rw [decoratedCase, if_neg h4, if_neg (by simp [h1, h2, h3, h5])] at hdec
  have hstep : processToolResult toolName toolResult toolArgs url =
      .obj (jsSpreadFields toolResult ++
        [("sourceUrl", .str url), ("toolDescription", .str toolName)]) := by
    rw [processToolResult, if_neg h1, if_neg h2, if_neg h3, if_neg h4, if_neg h5,
      processDefaultResult, if_pos hdec]
  rw [hstep]
  exact ⟨getField_spread_sourceUrl toolResult url toolName,
    toolName, getField_spread_toolDescription toolResult url toolName, hname⟩

/-- C4 witness: a successful one-element `getQuote` array is decorated
with the provenance URL and a non-empty tool description. -/
theorem processed_result_provenance_witness :
    (processToolResult "getQuote" (Json.arr [Json.obj [("price", .num 100)]])
        (Json.obj [("symbol", .str "SPOT")]) "https://x").getField "sourceUrl" =
      .str "https://x" ∧
    ∃ d, (processToolResult "getQuote" (Json.arr [Json.obj [("price", .num 100)]])
        (Json.obj [("symbol", .str "SPOT")]) "https://x").getField "toolDescription" =
      .str d ∧ d ≠ "" :=
  processed_result_provenance "getQuote" (Json.arr [Json.obj [("price", .num 100)]])
    (Json.obj [("symbol", .str "SPOT")]) "https://x" (by decide) (by decide) rfl

theorem length_filterMap_le_countP {α β : Type} (f : α → Option β) :
    ∀ l : List α, (l.filterMap f).length ≤ l.countP (fun a => (f a).isSome)
  | [] => by simp
  | a :: l => by
    rw [List.filterMap_cons, List.countP_cons]
    have ih := length_filterMap_le_countP f l
    cases hf : f a <;> simp [hf] <;> omega

def c5Fuse : FuzzySearcher := fun paras _ => paras.map (fun p => ⟨p, some 0, []⟩)

def c5Content : String :=
  "Unknown analyst asked about revenue growth and the margin outlook for this year"

/-- C5 counterexample: with the non-empty executive filter
`["Unknown"]` and a paragraph containing the word "Unknown", the
returned mention has speaker `"Unknown"` — refuting the claim's "no
returned mention has speaker=\"Unknown\"" conjunct (the name filter
matched the literal string `"Unknown"`). -/
theorem executive_filter_cex :
    ([Json.str "Unknown"] : List Json) ≠ [] ∧
    (searchTranscriptContent c5Fuse c5Content [Json.str "revenue"] [Json.str "Unknown"]
        (Json.str "AAA")).map (·.speaker) = [Json.str "Unknown"] :=
  ⟨List.cons_ne_nil _ _, rfl⟩

/-- C5 (amended): for every transcript scan with a non-empty executive
list, every returned mention's speaker is one of the supplied executive
values (the first one found, case-insensitively, in the window from three
paragraphs before the match through the matched paragraph); no returned
mention has speaker `"Unknown"` unless `"Unknown"` is itself one of the
supplied names; and every fuzzy match without an executive in its window
is discarded (the output is no longer than the count of window-matching
results among the 15 considered). -/
theorem executive_filter_hard (fuse : FuzzySearcher) (content : String)
    (topics executives : List Json) (symbol : Json) (hex : executives ≠ []) :
    (∀ m ∈ searchTranscriptContent fuse content topics executives symbol,
      m.speaker ∈ executives) ∧
    (Json.str "Unknown" ∉ executives →
      ∀ m ∈ searchTranscriptContent fuse content topics executives symbol,
        m.speaker ≠ Json.str "Unknown") ∧
    (searchTranscriptContent fuse content topics executives symbol).length ≤
      ((fuse (mkParagraphs content) topics).take 15).countP
        (fun r => (execSpeaker (mkParagraphs content) executives r.item.index).isSome) := by
  have hie : executives.isEmpty = false := by
    rcases executives with _ | _
    · exact absurd rfl hex
    · rfl
  by_cases hg : (content = "" || topics.isEmpty) = true
  · rw [searchTranscriptContent, if_pos hg]
    refine ⟨by simp, fun _ => by simp, by simp⟩
  · rw [searchTranscriptContent, if_neg hg]
    have hmem : ∀ m ∈ (sortLe mentionLe
        (((fuse (mkParagraphs content) topics).take 15).filterMap
          (mentionOfResult (mkParagraphs content) topics executives))).take 8,
        m.speaker ∈ executives := by
      intro m hm
      have hm1 : m ∈ sortLe mentionLe
          (((fuse (mkParagraphs content) topics).take 15).filterMap
            (mentionOfResult (mkParagraphs content) topics executives)) :=
        (List.take_sublist 8 _).subset hm
      have hm2 := mem_sortLe.mp hm1
      rcases List.mem_filterMap.mp hm2 with ⟨r, _, hr⟩
      rw [mentionOfResult] at hr
      rw [if_neg (by simp [hie])] at hr
      rcases hes : execSpeaker (mkParagraphs content) executives r.item.index with _ | e
      · rw [hes] at hr
        exact absurd hr (by simp)
      · rw [hes] at hr
        have hme : m.speaker = e := by
          rcases Option.some.injEq _ _ |>.mp hr with h
          rw [← h]
        rw [hme]
        exact List.mem_of_find?_eq_some hes
    refine ⟨hmem, ?_, ?_⟩
    · intro hUnk m hm heq
      exact hUnk (heq ▸ hmem m hm)
    · calc ((sortLe mentionLe
            (((fuse (mkParagraphs content) topics).take 15).filterMap
              (mentionOfResult (mkParagraphs content) topics executives))).take 8).length
          ≤ (sortLe mentionLe
            (((fuse (mkParagraphs content) topics).take 15).filterMap
              (mentionOfResult (mkParagraphs content) topics executives))).length := by
            exact (List.take_sublist 8 _).length_le
        _ = (((fuse (mkParagraphs content) topics).take 15).filterMap
              (mentionOfResult (mkParagraphs content) topics executives)).length :=
            length_sortLe _ _
        _ ≤ ((fuse (mkParagraphs content) topics).take 15).countP
              (fun r => (mentionOfResult (mkParagraphs content) topics executives r).isSome) :=
            length_filterMap_le_countP _ _
        _ = ((fuse (mkParagraphs content) topics).take 15).countP
              (fun r => (execSpeaker (mkParagraphs content) executives r.item.index).isSome) := by
            apply List.countP_congr
            intro r _
            rw [mentionOfResult]
            rw [if_neg (by simp [hie])]
            cases execSpeaker (mkParagraphs content) executives r.item.index <;> rfl

def c5WFuse : FuzzySearcher := fun paras _ => paras.map (fun p => ⟨p, some 0, []⟩)

def c5WContent : String :=
  "Elon Musk then discussed production numbers and revenue growth at some length today"

/-- C5 witness: searching with the executive filter `["Musk"]` over a
paragraph mentioning Musk returns only mentions attributed to `"Musk"`. -/
theorem executive_filter_hard_witness :
    ((∀ m ∈ searchTranscriptContent c5WFuse c5WContent [Json.str "revenue"] [Json.str "Musk"]
        (Json.str "TSLA"), m.speaker ∈ [Json.str "Musk"]) ∧
      (Json.str "Unknown" ∉ [Json.str "Musk"] →
        ∀ m ∈ searchTranscriptContent c5WFuse c5WContent [Json.str "revenue"] [Json.str "Musk"]
          (Json.str "TSLA"), m.speaker ≠ Json.str "Unknown") ∧
      (searchTranscriptContent c5WFuse c5WContent [Json.str "revenue"] [Json.str "Musk"]
          (Json.str "TSLA")).length ≤
        ((c5WFuse (mkParagraphs c5WContent) [Json.str "revenue"]).take 15).countP
          (fun r => (execSpeaker (mkParagraphs c5WContent) [Json.str "Musk"]
            r.item.index).isSome)) ∧
    (searchTranscriptContent c5WFuse c5WContent [Json.str "revenue"] [Json.str "Musk"]
        (Json.str "TSLA")).map (·.speaker) = [Json.str "Musk"] :=
  ⟨executive_filter_hard c5WFuse c5WContent [Json.str "revenue"] [Json.str "Musk"]
    (Json.str "TSLA") (List.cons_ne_nil _ _), rfl⟩

theorem scanQuarter_fetches_le_one (provider : SearchProvider) (fuse : FuzzySearcher)
    (topics executives : List Json) (symbol dateInfo : Json) :
    (scanQuarter provider fuse topics executives symbol dateInfo).2.1 ≤ 1 := by
  rw [scanQuarter]
  dsimp only
  repeat' split
  all_goals first
  | exact Nat.le_refl 1
  | exact Nat.zero_le 1

theorem scanQuarters_fetches_le (provider : SearchProvider) (fuse : FuzzySearcher)
    (topics executives : List Json) (symbol : Json) :
    ∀ ds : List Json,
      (scanQuarters provider fuse topics executives symbol ds).2.1 ≤ ds.length
  | [] => by simp [scanQuarters]
  | d :: ds => by
    rw [scanQuarters]
    have h1 := scanQuarter_fetches_le_one provider fuse topics executives symbol d
    have h2 := scanQuarters_fetches_le provider fuse topics executives symbol ds
    simp only [List.length_cons]
    omega

theorem scanSymbol_fetches_le (provider : SearchProvider) (fuse : FuzzySearcher)
    (topics executives : List Json) (L : Int) (hL : 0 ≤ L) (symbol : Json) :
    (scanSymbol provider fuse topics executives (Json.num L) symbol).2.1 ≤ L.toNat := by
  rw [scanSymbol]
  split
  · split
    · simp
    · refine le_trans (scanQuarters_fetches_le provider fuse topics executives symbol _) ?_
      have hj : jsToInt (Json.num L) = L := rfl
      rw [jsSliceTo, hj, if_neg (by omega)]
      exact List.length_take_le _ _
  · simp

theorem scanSymbols_fetches_le (provider : SearchProvider) (fuse : FuzzySearcher)
    (topics executives : List Json) (L : Int) (hL : 0 ≤ L) :
    ∀ symbols : List Json,
      (scanSymbols provider fuse topics executives (Json.num L) symbols).2.1 ≤
        symbols.length * L.toNat
  | [] => by simp [scanSymbols]
  | s :: ss => by
    rw [scanSymbols]
    have h1 := scanSymbol_fetches_le provider fuse topics executives L hL s
    have h2 := scanSymbols_fetches_le provider fuse topics executives L hL ss
    simp only [List.length_cons]
    calc (scanSymbol provider fuse topics executives (Json.num L) s).2.1 +
          (scanSymbols provider fuse topics executives (Json.num L) ss).2.1
        ≤ L.toNat + ss.length * L.toNat := Nat.add_le_add h1 h2
      _ = (ss.length + 1) * L.toNat := by ring
  termination_by symbols => symbols.length

theorem pooledLe_total : ∀ a b : PooledMention, pooledLe a b || pooledLe b a := by
  intro a b
  rcases le_total a.score b.score with h | h <;> simp [pooledLe, h]

theorem pooledLe_trans : ∀ a b c : PooledMention,
    pooledLe a b = true → pooledLe b c = true → pooledLe a c = true := by
  intro a b c hab hbc
  simp only [pooledLe, decide_eq_true_eq] at *
  exact le_trans hab hbc

/-- C2: for every transcript search with `lookbackQuarters = L > 0`: at
most `L` transcript bodies are fetched per symbol and at most
`symbols.length * L` in total; within each transcript only the first 15
fuse results are considered and at most 8 mentions survive; the pooled
mentions are sorted by ascending match score (lower = better) and the
returned mention list is the 15-capped prefix of that pool, of length
≤ 15.  ("Best 15" relies on fuse.js returning its results
best-score-first, a property of the external library.) -/
theorem transcript_search_bounds (provider : SearchProvider) (fuse : FuzzySearcher)
    (expansion : Except String Json) (toolArgs : Json) (L : Int)
    (hL : toolArgs.getField "lookbackQuarters" = Json.num L) (hLpos : 0 < L) :
    (∀ (topics executives : List Json) (symbol : Json),
      (scanSymbol provider fuse topics executives (Json.num L) symbol).2.1 ≤ L.toNat) ∧
    (executeTranscriptSearch provider fuse expansion toolArgs).transcriptFetches ≤
      (normalizeSearchArgs toolArgs).symbols.length * L.toNat ∧
    (∀ (f : FuzzySearcher) (content : String) (topics executives : List Json) (symbol : Json),
      (searchTranscriptContent f content topics executives symbol).length ≤ 8 ∧
      searchTranscriptContent f content topics executives symbol =
        searchTranscriptContent (fun p t => (f p t).take 15) content topics executives symbol) ∧
    (executeTranscriptSearch provider fuse expansion toolArgs).sortedPool.Pairwise
      (fun a b => a.score ≤ b.score) ∧
    (executeTranscriptSearch provider fuse expansion toolArgs).value.resultsSummary =
      ((executeTranscriptSearch provider fuse expansion toolArgs).sortedPool.take
        MAX_MENTIONS_TO_RETURN).map summarize ∧
    (executeTranscriptSearch provider fuse expansion toolArgs).value.resultsSummary.length ≤
      15 := by
  have hLne : (L == 0) = false := by
    rw [beq_eq_false_iff_ne]
    omega
  have hnorm : (normalizeSearchArgs toolArgs).lookbackQuarters = Json.num L := by
    simp [normalizeSearchArgs, jsOr, hL, jsFalsy, hLne]
  refine ⟨?_, ?_, ?_, ?_, rfl, ?_⟩
  · intro topics executives symbol
    exact scanSymbol_fetches_le provider fuse topics executives L (le_of_lt hLpos) symbol
  · show (scanSymbols provider fuse
      (expandTopics (normalizeSearchArgs toolArgs).topic expansion)
      (execList (normalizeSearchArgs toolArgs).executives)
      (normalizeSearchArgs toolArgs).lookbackQuarters
      (normalizeSearchArgs toolArgs).symbols).2.1 ≤
      (normalizeSearchArgs toolArgs).symbols.length * L.toNat
    rw [hnorm]
    exact scanSymbols_fetches_le provider fuse _ _ L (le_of_lt hLpos) _
  · intro f content topics executives symbol
    constructor
    · rw [searchTranscriptContent]
      split
      · simp
      · exact List.length_take_le _ _
    · rw [searchTranscriptContent, searchTranscriptContent]
      by_cases hg : (content = "" || topics.isEmpty) = true
      · rw [if_pos hg, if_pos hg]
      · rw [if_neg hg, if_neg hg]
        simp [List.take_take]
  · show (sortLe pooledLe _).Pairwise (fun a b => a.score ≤ b.score)
    refine List.Pairwise.imp ?_ (pairwise_sortLe pooledLe_total pooledLe_trans _)
    intro a b h
    simpa [pooledLe] using h
  · show (((sortLe pooledLe _).take MAX_MENTIONS_TO_RETURN).map summarize).length ≤ 15
    rw [List.length_map]
    exact le_trans (List.length_take_le _ _) (by norm_num [MAX_MENTIONS_TO_RETURN])

def c2Provider : SearchProvider :=
  { getDates := fun _ => Json.arr [
      Json.obj [("year", .num 2025), ("quarter", .num 2)],
      Json.obj [("year", .num 2025), ("quarter", .num 1)],
      Json.obj [("year", .num 2024), ("quarter", .num 4)],
      Json.obj [("year", .num 2024), ("quarter", .num 3)],
      Json.obj [("year", .num 2024), ("quarter", .num 2)]]
    getTranscript := fun _ _ _ => Json.arr [] }

def c2Fuse : FuzzySearcher := fun _ _ => []

def c2Args : Json := Json.obj [("symbols", Json.arr [.str "AAA", .str "BBB"]),
  ("topic", .str "margins"), ("lookbackQuarters", .num 4)]

/-- C2 witness: a two-symbol search with `lookbackQuarters: 4` over a
provider with five available quarters per symbol makes exactly 8
transcript fetches (within the proved 2·4 bound) and returns at most 15
mentions. -/
theorem transcript_search_bounds_witness :
    (executeTranscriptSearch c2Provider c2Fuse (.error "skip") c2Args).transcriptFetches ≤
      (normalizeSearchArgs c2Args).symbols.length * (4 : Int).toNat ∧
    (executeTranscriptSearch c2Provider c2Fuse (.error "skip") c2Args).transcriptFetches = 8 ∧
    (executeTranscriptSearch c2Provider c2Fuse (.error "skip") c2Args).value.resultsSummary.length ≤
      15 := by
  obtain ⟨_, h2, _, _, _, h6⟩ := transcript_search_bounds c2Provider c2Fuse (.error "skip")
    c2Args 4 rfl (by decide)
  exact ⟨h2, rfl, h6⟩

end FinAgent
